import Mathlib

/-!
Verification development for the `fadable-calendar` backend.

We shallowly embed the period/event projection engine of
`src/backend/periods.py` and the widget computations of
`src/backend/widgets.py`:

* Python `datetime.date` values are embedded as their proleptic Gregorian
  ordinal (`date.toordinal()`), an integer number of days with
  `date(1,1,1) ↦ 1`; `timedelta` day arithmetic is integer arithmetic.
* Python `datetime.datetime` values are embedded at minute granularity as
  the integer number of minutes since midnight of ordinal day 0; all the
  datetimes the verified properties touch sit on whole minutes, and the
  code itself only ever reads `hour * 60 + minute` out of a datetime.
  Timezones are elided (a single implicit zone), as no verified property
  compares instants across zones.
* The third-party `dateutil.rrule` expansion is modelled for the rule
  shapes the calendar data uses (`FREQ=DAILY` with optional `INTERVAL`
  and `COUNT`): `rule.between(a, b, inc=True)` returns the rule-generated
  instants `dtstart + k·interval·day` lying in `[a, b]`, in order.
-/

namespace FadableCalendar

/-- Leap-year test, as Python's `calendar.isleap` / `date` internals:
`y % 4 == 0 and (y % 100 != 0 or y % 400 == 0)`. -/
def isLeap (y : Nat) : Bool :=
  y % 4 == 0 && (y % 100 != 0 || y % 400 == 0)

/-- Number of days in month `m` (1-12) of year `y`. -/
def daysInMonth (y m : Nat) : Nat :=
  if m == 2 then (if isLeap y then 29 else 28)
  else if m == 4 || m == 6 || m == 9 || m == 11 then 30
  else 31

/-- Days in the year before the first day of month `m` (1-12). -/
def daysBeforeMonth (y m : Nat) : Nat :=
  (List.range (m - 1)).foldl (fun acc i => acc + daysInMonth y (i + 1)) 0

/-- Days before January 1 of year `y` in the proleptic Gregorian calendar,
so that `toOrdinal 1 1 1 = 1` as in Python's `date.toordinal`. -/
def daysBeforeYear (y : Nat) : Nat :=
  365 * (y - 1) + (y - 1) / 4 - (y - 1) / 100 + (y - 1) / 400

/-- `date(y, m, d).toordinal()`. -/
def toOrdinal (y m d : Nat) : Nat :=
  daysBeforeYear y + daysBeforeMonth y m + d

/-- Find the month (1-12) containing 0-based day-of-year `n` of year `y`:
the number of months `m` with `daysBeforeMonth y m ≤ n`. -/
def monthOfDayOfYear (y n : Nat) : Nat :=
  ((List.range 12).filter (fun i => daysBeforeMonth y (i + 1) ≤ n)).length

/-- `date.fromordinal`, via the 400/100/4/1-year cycle decomposition used
by CPython's `datetime` module. Returns `(year, month, day)`. -/
def fromOrdinal (o : Nat) : Nat × Nat × Nat :=
  let n := o - 1
  let n400 := n / 146097
  let n := n % 146097
  let n100 := n / 36524
  let n := n % 36524
  let n4 := n / 1461
  let n := n % 1461
  let n1 := n / 365
  let n := n % 365
  let year := n400 * 400 + n100 * 100 + n4 * 4 + n1 + 1
  if n1 == 4 || n100 == 4 then
    (year - 1, 12, 31)
  else
    let m := monthOfDayOfYear year n
    (year, m, n - daysBeforeMonth year m + 1)

/-- `date.weekday()`: Monday = 0 … Sunday = 6; ordinal 1 (0001-01-01) is a
Monday. -/
def weekday (o : Int) : Int :=
  (o + 6) % 7

end FadableCalendar

namespace FadableCalendar

/-- The `(start_date, end_date)` identity of a `Period`
(`src/backend/periods.py`, `Period.__init__`); dates as ordinals. -/
structure PeriodDates where
  startDate : Int
  endDate : Int
  deriving DecidableEq, Repr

/-- `date.replace(day=1)` on an ordinal. -/
def replaceDay1 (o : Int) : Int :=
  let (y, m, _) := fromOrdinal o.toNat
  (toOrdinal y m 1 : Int)

/-- `date.replace(month=1, day=1)` on an ordinal. -/
def replaceJan1 (o : Int) : Int :=
  let (y, _, _) := fromOrdinal o.toNat
  (toOrdinal y 1 1 : Int)

/-- The span `self._end_date - self._start_date + timedelta(days=1)` used by
`Period.previous_period` / `Period.next_period`. -/
def periodDelta (p : PeriodDates) : Int :=
  p.endDate - p.startDate + 1

/-- `Period.previous_period`: `from_start_date(start - delta)`, with
`from_start_date` dispatched to the subclass constructor. -/
def previousPeriodWith (fromStartDate : Int → PeriodDates) (p : PeriodDates) : PeriodDates :=
  fromStartDate (p.startDate - periodDelta p)

/-- `Period.next_period`: `from_start_date(start + delta)`. -/
def nextPeriodWith (fromStartDate : Int → PeriodDates) (p : PeriodDates) : PeriodDates :=
  fromStartDate (p.startDate + periodDelta p)

/-- `WeekPeriod.__init__`: normalize the given start date back to the
week's `start_of_week` weekday; the week ends six days later. -/
def weekPeriodInit (startDate : Int) (startOfWeek : Int) : PeriodDates :=
  let deltaDays := (weekday startDate - startOfWeek) % 7
  let s := startDate - deltaDays
  ⟨s, s + 6⟩

/-- `WeekPeriod.from_any_date`. -/
def weekFromAnyDate (anyDate : Int) (startOfWeek : Int) : PeriodDates :=
  let deltaDays := (weekday anyDate - startOfWeek) % 7
  weekPeriodInit (anyDate - deltaDays) startOfWeek

/-- `WeekPeriod.from_start_date`: trusts the given date's weekday as the
start of week. -/
def weekFromStartDate (startDate : Int) : PeriodDates :=
  weekFromAnyDate startDate (weekday startDate)

/-- `MonthPeriod.__init__`: start is clamped to the first of the month;
for December the code sets `end_date = start.replace(year+1, month=1,
day=31)` (January 31 of the NEXT year), otherwise the day before the
first of the next month. -/
def monthPeriodInit (startDate : Int) : PeriodDates :=
  let s := replaceDay1 startDate
  let (y, m, _) := fromOrdinal s.toNat
  if m == 12 then
    ⟨s, (toOrdinal (y + 1) 1 31 : Int)⟩
  else
    ⟨s, (toOrdinal y (m + 1) 1 : Int) - 1⟩

/-- `MonthPeriod.from_any_date`. -/
def monthFromAnyDate (anyDate : Int) : PeriodDates :=
  monthPeriodInit (replaceDay1 anyDate)

/-- `MonthPeriod.from_start_date` (delegates to `from_any_date`). -/
def monthFromStartDate (startDate : Int) : PeriodDates :=
  monthFromAnyDate startDate

/-- `YearPeriod.__init__`: start clamped to January 1; end is the day
before January 1 of the next year. -/
def yearPeriodInit (startDate : Int) : PeriodDates :=
  let s := replaceJan1 startDate
  let (y, _, _) := fromOrdinal s.toNat
  ⟨s, (toOrdinal (y + 1) 1 1 : Int) - 1⟩

/-- `YearPeriod.from_any_date`. -/
def yearFromAnyDate (anyDate : Int) : PeriodDates :=
  yearPeriodInit (replaceJan1 anyDate)

/-- `YearPeriod.from_start_date`. -/
def yearFromStartDate (startDate : Int) : PeriodDates :=
  yearFromAnyDate startDate


end FadableCalendar

namespace FadableCalendar

/-- Date part of a datetime (minutes since midnight of ordinal day 0):
`datetime.date()`. Euclidean division matches Python floor division for
the positive divisor 1440. -/
def dateOf (t : Int) : Int := t / 1440

/-- `dt.hour * 60 + dt.minute` for a datetime at minute granularity. -/
def minuteOfDay (t : Int) : Int := t % 1440

/-- A recurrence rule as used by the calendar data: `FREQ=DAILY` with
optional `INTERVAL` (days between occurrences, ≥ 1) and `COUNT`. -/
structure RRule where
  interval : Nat
  count : Option Nat
  deriving DecidableEq, Repr

/-- A parsed EXDATE property value: the code distinguishes an 8-character
date-only value (`"%Y%m%d"`) from a date-time value (`"%Y%m%dT%H%M%S"`). -/
inductive ExDateVal
  | dateOnly (ord : Int)
  | dateTime (t : Int)
  deriving DecidableEq, Repr

/-- The instant `datetime.strptime` produces for an EXDATE value: a
date-only value parses to midnight of its day. -/
def ExDateVal.instant : ExDateVal → Int
  | .dateOnly ord => ord * 1440
  | .dateTime t => t

/-- An `ics.Event` restricted to the fields `Period.timed_events` reads:
the all-day flag, begin/end instants, the name, and the RRULE/EXDATE
extra properties (structured instead of raw strings). -/
structure Event where
  allDay : Bool
  beginDt : Int
  endDt : Int
  name : String
  rrule : Option RRule
  exdates : List ExDateVal
  deriving DecidableEq, Repr

/-- `ics.Event.duration` = end − begin (minutes). -/
def Event.duration (e : Event) : Int := e.endDt - e.beginDt

/-- An `ics.Calendar` restricted to its event collection. -/
structure Calendar where
  events : List Event
  deriving DecidableEq, Repr

/-- `dateutil` `rrulestr(...).between(lo, hi, inc=True)` for the rule
shapes modelled: the instants `dtstart + k·interval·1440` with
`k < count` (when a count is given) that lie in `[lo, hi]`, ascending. -/
def ruleBetween (dtstart : Int) (r : RRule) (lo hi : Int) : List Int :=
  if hi < dtstart then []
  else
    let step : Nat := r.interval * 1440
    let kmax : Nat := if step == 0 then 0 else (hi - dtstart).toNat / step
    let bound : Nat := match r.count with
      | some c => min c (kmax + 1)
      | none => kmax + 1
    ((List.range bound).map (fun k => dtstart + (k : Int) * (step : Int))).filter
      (fun t => decide (lo ≤ t) && decide (t ≤ hi))

/-- One occurrence tuple `(occurrence_date, start_minutes, end_minutes,
event, color)` as appended to `timed_events`. -/
structure Occ where
  occDate : Int
  startMinutes : Int
  endMinutes : Int
  event : Event
  color : String
  deriving DecidableEq, Repr

/-- `set.add` on the exception-date set (modelled as a duplicate-free
list). -/
def addExceptionDate (s : List Int) (x : Int) : List Int :=
  if x ∈ s then s else s ++ [x]

/-- The EXDATE-collection loop of `Period.timed_events`: each parsed
EXDATE whose date falls within `[start_date, end_date]` is added to the
period's exception-date set. -/
def collectExdates (startDate endDate : Int) (e : Event) (s : List Int) : List Int :=
  e.exdates.foldl
    (fun s xd =>
      let x := xd.instant
      if startDate ≤ dateOf x ∧ dateOf x ≤ endDate then addExceptionDate s x else s)
    s

/-- The rule-generated instants of a recurring event that survive the
exception filter (`if occ_start in self._exception_dates: continue`). -/
def keptInstants (startDate endDate : Int) (e : Event) (r : RRule) (exc : List Int) :
    List Int :=
  (ruleBetween e.beginDt r (startDate * 1440) (endDate * 1440 + 1439)).filter
    (fun t => decide (t ∉ exc))

/-- Clip one kept instant of a recurring event into an occurrence tuple:
start minutes clamped to 0 when the occurrence date precedes the period
start, end minutes clamped to 1440 when the occurrence end date exceeds
the period end. -/
def mkRecurringOcc (startDate endDate : Int) (e : Event) (color : String) (t : Int) : Occ :=
  let te := t + e.duration
  let sm := if dateOf t < startDate then 0 else minuteOfDay t
  let em := if dateOf te > endDate then 1440 else minuteOfDay te
  ⟨dateOf t, sm, em, e, color⟩

/-- Process one event inside the `timed_events` double loop, threading
the occurrence accumulator and the shared exception-date set. -/
def processEvent (startDate endDate : Int) (color : String)
    (acc : List Occ × List Int) (e : Event) : List Occ × List Int :=
  if e.allDay then acc
  else
    match e.rrule with
    | some r =>
        let exc := collectExdates startDate endDate e acc.2
        let occs := (keptInstants startDate endDate e r exc).map
          (mkRecurringOcc startDate endDate e color)
        (acc.1 ++ occs, exc)
    | none =>
        if dateOf e.endDt < startDate ∨ dateOf e.beginDt > endDate then acc
        else
          (acc.1 ++ [⟨dateOf e.beginDt, minuteOfDay e.beginDt, minuteOfDay e.endDt, e, color⟩],
           acc.2)

/-- Process one `(calendar, color)` pair of the zip. -/
def processCalendar (startDate endDate : Int)
    (acc : List Occ × List Int) (pair : Calendar × String) : List Occ × List Int :=
  pair.1.events.foldl (processEvent startDate endDate pair.2) acc

/-- The state of a `Period` object relevant to `timed_events`:
`Period.__init__` stores the window, the calendars with their colors, and
an initially empty exception-date set. -/
structure PeriodState where
  startDate : Int
  endDate : Int
  calendars : List Calendar
  calendarColors : List String
  exceptionDates : List Int
  deriving DecidableEq, Repr

/-- `Period.__init__`: a missing `calendar_colors` defaults to one
`'#777777'` per calendar; `_exception_dates` starts empty. -/
def periodInitState (startDate endDate : Int) (calendars : List Calendar)
    (calendarColors : Option (List String)) : PeriodState :=
  ⟨startDate, endDate, calendars,
   calendarColors.getD (calendars.map fun _ => "#777777"), []⟩

/-- The sort key comparison `(item[0], item[1], item[2])` (occurrence
date, start minutes, end minutes), lexicographic. -/
def occLE (a b : Occ) : Bool :=
  decide (a.occDate < b.occDate) ||
    (decide (a.occDate = b.occDate) &&
      (decide (a.startMinutes < b.startMinutes) ||
        (decide (a.startMinutes = b.startMinutes) && decide (a.endMinutes ≤ b.endMinutes))))

/-- The unsorted `timed_events` list together with the final value of the
mutated `_exception_dates` set. -/
def timedEventsCore (p : PeriodState) : List Occ × List Int :=
  (p.calendars.zip p.calendarColors).foldl
    (processCalendar p.startDate p.endDate) ([], p.exceptionDates)

/-- Stable insertion into a sorted list: `a` goes after every existing
element that does not compare strictly greater, so equal keys keep their
original relative order, as with Python's stable `list.sort`. -/
def stableInsert (le : Occ → Occ → Bool) (a : Occ) : List Occ → List Occ
  | [] => [a]
  | b :: l => if le b a then b :: stableInsert le a l else a :: b :: l

/-- Stable sort by the comparison `le` (insertion sort): the unique
stable, order-preserving rearrangement Python's key sort produces. -/
def stableSort (le : Occ → Occ → Bool) : List Occ → List Occ
  | [] => []
  | a :: l => stableInsert le a (stableSort le l)

/-- The value `Period.timed_events` returns: the accumulated occurrence
tuples sorted (stably) by (date, start minutes, end minutes). -/
def timedEvents (p : PeriodState) : List Occ :=
  stableSort occLE (timedEventsCore p).1

/-- Accessing `Period.timed_events` also mutates `self._exception_dates`;
`timedEventsRun` returns the value together with the updated state. -/
def timedEventsRun (p : PeriodState) : List Occ × PeriodState :=
  (timedEvents p, { p with exceptionDates := (timedEventsCore p).2 })

/-- The `Period.exception_dates` property: a plain read of the field. -/
def exceptionDatesOf (p : PeriodState) : List Int :=
  p.exceptionDates

end FadableCalendar

namespace FadableCalendar

/-- `DensityWidget._calculate_density` (`src/backend/widgets.py`): the
average of an empty lookback list defaults to 1.0, and a non-positive
average forces density 1.0. Python floats are embedded as rationals; the
branch conditions and the degenerate branches are exact. -/
def calculateDensity (thisResult : ℚ) (lookbackResults : List ℚ) : ℚ :=
  let averageLookback : ℚ :=
    if lookbackResults.length > 0 then lookbackResults.sum / (lookbackResults.length : ℚ)
    else 1
  if averageLookback > 0 then thisResult / averageLookback else 1

/-- `ExceptionsCountWidget.get_color_token` on a numeric count: the code
tests `value >= 1` before `value >= 5`, so the `DANGER` branch is
unreachable. -/
def exceptionsGetColorToken (value : Int) : String :=
  if value ≥ 1 then "warning"
  else if value ≥ 5 then "danger"
  else "neutral"

/-- `ExceptionsCountWidget._core`: the size of the period's
exception-date set. -/
def exceptionsCountCore (p : PeriodState) : Nat :=
  (exceptionDatesOf p).length

/-- The local state of `WeekPeriod._generate_day_strip_html`: the
per-row end times and the `(start_minutes, end_minutes, row_index)`
assignments made so far (the event and color ride along unchanged and
are dropped here). -/
structure StripState where
  rowEndTimes : List Int
  assigned : List (Int × Int × Nat)
  deriving DecidableEq, Repr

/-- The row-search loop: index of the first row whose current end time is
`≤` the occurrence's start minutes. -/
def findRow : List Int → Int → Option Nat
  | [], _ => none
  | rowEnd :: rest, startM =>
      if rowEnd ≤ startM then some 0 else (findRow rest startM).map (· + 1)

/-- One iteration of the row-assignment loop: reuse the found row
(updating its end time) or append a new row. -/
def stripStep (st : StripState) (iv : Int × Int) : StripState :=
  match findRow st.rowEndTimes iv.1 with
  | some idx => ⟨st.rowEndTimes.set idx iv.2, st.assigned ++ [(iv.1, iv.2, idx)]⟩
  | none => ⟨st.rowEndTimes ++ [iv.2], st.assigned ++ [(iv.1, iv.2, st.rowEndTimes.length)]⟩

/-- The full greedy row assignment over a day's occurrence intervals in
presentation order. -/
def assignRows (l : List (Int × Int)) : StripState :=
  l.foldl stripStep ⟨[], []⟩

/-- Number of rows the greedy assignment used. -/
def rowsUsed (l : List (Int × Int)) : Nat :=
  (assignRows l).rowEndTimes.length

/-- `total_rows = max(1, len(row_end_times))`. -/
def totalRows (l : List (Int × Int)) : Nat :=
  max 1 (rowsUsed l)

/-- The `(start_minutes, end_minutes)` intervals
`WeekPeriod._generate_day_strip_html` processes for one day: the
period's timed events restricted to that day, in their sorted order. -/
def dayIntervals (p : PeriodState) (day : Int) : List (Int × Int) :=
  ((timedEvents p).filter (fun o => decide (o.occDate = day))).map
    (fun o => (o.startMinutes, o.endMinutes))

/-- Two `[start_minutes, end_minutes)` ranges overlap: their
intersection is non-empty. -/
def overlaps (a b : Int × Int) : Prop :=
  max a.1 b.1 < min a.2 b.2

instance : DecidableRel overlaps := fun a b => by unfold overlaps; infer_instance

/-- A clique of the overlap graph on a day's occurrence multiset: a
selection (sublist) of the intervals that is pairwise overlapping. -/
def isClique (c : List (Int × Int)) : Prop :=
  c.Pairwise overlaps

instance : DecidablePred isClique := fun c => by unfold isClique; infer_instance

/-- The maximum clique size of the overlap graph on the given interval
multiset. -/
def maxCliqueSize (l : List (Int × Int)) : Nat :=
  ((l.sublists.filter (fun c => decide (isClique c))).map List.length).foldl Nat.max 0

/-- Minutes-since-day-0 instant for calendar date `(y, m, d)` at clock
time `hh:mm`. -/
def dt (y m d hh mm : Nat) : Int :=
  (toOrdinal y m d : Int) * 1440 + hh * 60 + mm

/-- Non-recurring event 2024-01-01 23:00 → 2024-01-02 01:00, spanning
midnight. -/
def lateEvent : Event :=
  ⟨false, dt 2024 1 1 23 0, dt 2024 1 2 1 0, "late", none, []⟩

/-- A week period 2024-01-01..2024-01-07 holding only `lateEvent`. -/
def lateEventPeriod : PeriodState :=
  periodInitState (toOrdinal 2024 1 1) (toOrdinal 2024 1 7) [⟨[lateEvent]⟩] none

/-- Daily 10:00–11:00 event from 2024-01-01 with a date-only EXDATE for
2024-01-02. -/
def morningEvent : Event :=
  ⟨false, dt 2024 1 1 10 0, dt 2024 1 1 11 0, "morning", some ⟨1, none⟩,
   [.dateOnly (toOrdinal 2024 1 2)]⟩

/-- A week period 2024-01-01..2024-01-07 holding only `morningEvent`. -/
def morningEventPeriod : PeriodState :=
  periodInitState (toOrdinal 2024 1 1) (toOrdinal 2024 1 7) [⟨[morningEvent]⟩] none

/-- Daily 09:00–09:30 event from 2024-01-01 with a time-bearing EXDATE
2024-01-03T09:00 (the spec's own scenario). -/
def meetingEvent : Event :=
  ⟨false, dt 2024 1 1 9 0, dt 2024 1 1 9 30, "meeting", some ⟨1, none⟩,
   [.dateTime (dt 2024 1 3 9 0)]⟩

/-- A week period 2024-01-01..2024-01-07 holding only `meetingEvent`. -/
def meetingEventPeriod : PeriodState :=
  periodInitState (toOrdinal 2024 1 1) (toOrdinal 2024 1 7) [⟨[meetingEvent]⟩] none

/-- Daily 08:00–08:30 event from 2024-01-01 declaring an EXDATE
2024-01-02T10:00 that matches none of its own instants but one of
`dailyTenEvent`'s. -/
def dailyEightEvent : Event :=
  ⟨false, dt 2024 1 1 8 0, dt 2024 1 1 8 30, "eight", some ⟨1, none⟩,
   [.dateTime (dt 2024 1 2 10 0)]⟩

/-- Daily 10:00–10:30 event from 2024-01-01 with no exceptions of its
own. -/
def dailyTenEvent : Event :=
  ⟨false, dt 2024 1 1 10 0, dt 2024 1 1 10 30, "ten", some ⟨1, none⟩, []⟩

/-- A week period 2024-01-01..2024-01-07 with `dailyEightEvent` listed
before `dailyTenEvent` in the same calendar. -/
def sharedExdatePeriod : PeriodState :=
  periodInitState (toOrdinal 2024 1 1) (toOrdinal 2024 1 7)
    [⟨[dailyEightEvent, dailyTenEvent]⟩] none

/-- An all-day event on 2024-01-03. -/
def allDayEvent : Event :=
  ⟨true, dt 2024 1 3 0 0, dt 2024 1 4 0 0, "allday", none, []⟩

/-- A week period 2024-01-01..2024-01-07 holding only `allDayEvent`. -/
def allDayPeriod : PeriodState :=
  periodInitState (toOrdinal 2024 1 1) (toOrdinal 2024 1 7) [⟨[allDayEvent]⟩] none

end FadableCalendar

namespace FadableCalendar

/-- Same-row succession: if two assignments share a row, the earlier one
ends no later than the later one starts. -/
def rowLE (x y : Int × Int × Nat) : Prop := x.2.2 = y.2.2 → x.2.1 ≤ y.1

/-- Invariant of the greedy row-assignment state: every assigned row
index is in range; every row's end time is the end of some assignment in
that row; every assignment's end is the row's current end or bounded by
a later same-row assignment's start; same-row assignments are chained in
order. -/
def StripInv (st : StripState) : Prop :=
  (∀ x ∈ st.assigned, x.2.2 < st.rowEndTimes.length) ∧
  (∀ r, r < st.rowEndTimes.length →
    ∃ x ∈ st.assigned, x.2.2 = r ∧ x.2.1 = st.rowEndTimes.getD r 0) ∧
  (∀ x ∈ st.assigned,
    x.2.1 = st.rowEndTimes.getD x.2.2 0 ∨
      ∃ z ∈ st.assigned, z.2.2 = x.2.2 ∧ x.2.1 ≤ z.1) ∧
  st.assigned.Pairwise rowLE

/-- The assignment `x` covers the minute `p`. -/
def containsPoint (p : Int) (x : Int × Int × Nat) : Bool :=
  decide (x.1 ≤ p) && decide (p < x.2.1)

/-- There is a minute covered by at least as many assignments as there
are rows. -/
def stripCliquePoint (st : StripState) : Prop :=
  ∃ p : Int, st.rowEndTimes.length ≤ (st.assigned.filter (containsPoint p)).length

/-- Non-recurring event 2024-01-01 21:30–22:30. -/
def eveningEvent : Event :=
  ⟨false, dt 2024 1 1 21 30, dt 2024 1 1 22 30, "evening", none, []⟩

/-- Non-recurring event 2024-01-01 22:00 → 2024-01-02 00:30, spanning
midnight (so its tuple wraps: start 1320, end 30). -/
def overnightEvent : Event :=
  ⟨false, dt 2024 1 1 22 0, dt 2024 1 2 0 30, "overnight", none, []⟩

/-- A week period 2024-01-01..2024-01-07 with `eveningEvent` and
`overnightEvent`. -/
def overlapPeriod : PeriodState :=
  periodInitState (toOrdinal 2024 1 1) (toOrdinal 2024 1 7)
    [⟨[eveningEvent, overnightEvent]⟩] none

end FadableCalendar

namespace FadableCalendar

/-! ### Helper lemmas -/

theorem foldl_preserve {α β : Type _} (P : β → Prop) (f : β → α → β) :
    ∀ (l : List α) (b : β), P b → (∀ b' a, a ∈ l → P b' → P (f b' a)) →
      P (l.foldl f b) := by
  intro l
  induction l with
  | nil => intro b hb _; simpa using hb
  | cons a l ih =>
      intro b hb hstep
      simp only [List.foldl_cons]
      exact ih _ (hstep b a (List.mem_cons_self a l) hb)
        (fun b' a' ha' => hstep b' a' (List.mem_cons_of_mem a ha'))

theorem stableInsert_perm (le : Occ → Occ → Bool) (a : Occ) :
    ∀ l : List Occ, (stableInsert le a l).Perm (a :: l) := by
  intro l
  induction l with
  | nil => simp [stableInsert]
  | cons b l ih =>
      simp only [stableInsert]
      split_ifs
      · exact ((ih.cons b).trans (List.Perm.swap a b l))
      · exact List.Perm.refl _

theorem stableSort_perm (le : Occ → Occ → Bool) :
    ∀ l : List Occ, (stableSort le l).Perm l := by
  intro l
  induction l with
  | nil => simp [stableSort]
  | cons a l ih =>
      exact (stableInsert_perm le a (stableSort le l)).trans (ih.cons a)

theorem minuteOfDay_nonneg (t : Int) : 0 ≤ minuteOfDay t :=
  Int.emod_nonneg t (by norm_num)

theorem minuteOfDay_lt (t : Int) : minuteOfDay t < 1440 :=
  Int.emod_lt_of_pos t (by norm_num)

/-! ### C1 -/

/-- C1 (counterexample): for the valid month period starting 2023-02-01,
`previous_period(next_period(P))` is the January 2023 period, not `P`:
the step back from March 2023 is 31 days, landing on January 29, which
`MonthPeriod.__init__` clamps to January 1. -/
theorem c1_counterexample :
    previousPeriodWith monthFromStartDate
      (nextPeriodWith monthFromStartDate (monthPeriodInit (toOrdinal 2023 2 1))) ≠
    monthPeriodInit (toOrdinal 2023 2 1) := by decide

set_option maxHeartbeats 1600000 in
/-- C1 (amended): `previous_period(next_period(P)) == P` holds for every
week period; for month and year periods the round trip is not an
identity (the span stepped back is the day count of the *new* period,
which can overshoot the original period's start, e.g. from February 2023
and from year 2023). -/
theorem c1_roundtrip_amended :
    (∀ s sow : Int,
        previousPeriodWith weekFromStartDate
          (nextPeriodWith weekFromStartDate (weekPeriodInit s sow)) =
        weekPeriodInit s sow)
    ∧ (∃ s : Int,
        previousPeriodWith monthFromStartDate
          (nextPeriodWith monthFromStartDate (monthPeriodInit s)) ≠ monthPeriodInit s)
    ∧ (∃ s : Int,
        previousPeriodWith yearFromStartDate
          (nextPeriodWith yearFromStartDate (yearPeriodInit s)) ≠ yearPeriodInit s) := by
  refine ⟨?_, ⟨(toOrdinal 2023 4 1 : Int), by decide⟩, ⟨(toOrdinal 2023 1 1 : Int), by decide⟩⟩
  intro s sow
  simp only [previousPeriodWith, nextPeriodWith, weekFromStartDate, weekFromAnyDate,
    weekPeriodInit, periodDelta, weekday, PeriodDates.mk.injEq]
  omega

/-! ### C2 -/

/-- C2 (code bug): `MonthPeriod.__init__` for a December start sets
`end_date = start_date.replace(year+1, month=1, day=31)`, i.e. January
31 of the NEXT year instead of December 31: the period starting
2023-12-01 ends 2024-01-31, not 2023-12-31 (the last day of December,
as the spec states for every month including December). -/
theorem c2_december_end_date_bug :
    (monthPeriodInit (toOrdinal 2023 12 1)).startDate = (toOrdinal 2023 12 1 : Int) ∧
    (monthPeriodInit (toOrdinal 2023 12 1)).endDate = (toOrdinal 2024 1 31 : Int) ∧
    (toOrdinal 2024 1 31 : Int) ≠ (toOrdinal 2023 12 31 : Int) := by decide

/-! ### C6 -/

/-- C6 (counterexample): with an empty lookback list the density is the
current period's raw value, not 1.0: a period whose core value is 2
yields density 2. -/
theorem c6_counterexample : calculateDensity 2 [] ≠ 1 := by norm_num [calculateDensity]

/-- C6 (amended): the density is this period's value divided by the
average of the lookback values; with an empty lookback list the average
defaults to 1.0 so the density equals this period's value (not 1.0);
with a non-empty all-zero lookback the density is forced to 1.0 (no
division by zero). -/
theorem c6_density_amended :
    (∀ t : ℚ, calculateDensity t [] = t)
    ∧ (∀ (t : ℚ) (ls : List ℚ), ls ≠ [] → (∀ x ∈ ls, x = 0) → calculateDensity t ls = 1)
    ∧ (∀ (t : ℚ) (ls : List ℚ), ls ≠ [] → 0 < ls.sum →
        calculateDensity t ls = t / (ls.sum / ls.length)) := by
  refine ⟨fun t => by norm_num [calculateDensity], ?_, ?_⟩
  · intro t ls hne hzero
    have hlen : 0 < ls.length := List.length_pos.mpr hne
    have hsum : ls.sum = 0 := List.sum_eq_zero hzero
    simp only [calculateDensity, hlen, if_pos, hsum]
    norm_num
  · intro t ls hne hsum
    have hlen : 0 < ls.length := List.length_pos.mpr hne
    have hlenQ : (0 : ℚ) < (ls.length : ℚ) := by exact_mod_cast hlen
    have havg : (0 : ℚ) < ls.sum / (ls.length : ℚ) := div_pos hsum hlenQ
    simp only [calculateDensity, hlen, if_pos, havg]

/-- C6 (witness): a non-empty all-zero lookback yields density 1. -/
theorem c6_witness : calculateDensity 3 [0, 0] = 1 :=
  c6_density_amended.2.1 3 [0, 0] (by decide) (by decide)

/-! ### C7 -/

/-- C7 (code-bug evaluation): `ExceptionsCountWidget.get_color_token`
tests `value >= 1` before `value >= 5`, so every count ≥ 1 — including
counts ≥ 5 — yields the warning token and the danger branch is
unreachable: at the failing input 5 the code returns "warning" where the
claim (and the dead branch) says "danger". -/
theorem c7_exceptions_color_token_bug :
    exceptionsGetColorToken 0 = "neutral" ∧
    exceptionsGetColorToken 1 = "warning" ∧
    exceptionsGetColorToken 4 = "warning" ∧
    exceptionsGetColorToken 5 = "warning" ∧
    exceptionsGetColorToken 100 = "warning" := by decide

end FadableCalendar

namespace FadableCalendar

/-! ### Occurrence invariants through the `timed_events` fold -/

theorem processEvent_occ_inv (sd ed : Int) (color : String)
    (acc : List Occ × List Int) (e : Event)
    (h : ∀ o ∈ acc.1, o.event.allDay = false ∧ 0 ≤ o.startMinutes ∧
      o.startMinutes ≤ 1440 ∧ 0 ≤ o.endMinutes ∧ o.endMinutes ≤ 1440) :
    ∀ o ∈ (processEvent sd ed color acc e).1, o.event.allDay = false ∧
      0 ≤ o.startMinutes ∧ o.startMinutes ≤ 1440 ∧
      0 ≤ o.endMinutes ∧ o.endMinutes ≤ 1440 := by
  intro o ho
  unfold processEvent at ho
  cases hall : e.allDay with
  | true => rw [hall] at ho; simp at ho; exact h o ho
  | false =>
      rw [hall] at ho
      simp only [Bool.false_eq_true, if_false] at ho
      cases hr : e.rrule with
      | some r =>
          rw [hr] at ho
          simp only [List.mem_append] at ho
          rcases ho with ho | ho
          · exact h o ho
          · rcases List.mem_map.mp ho with ⟨t, _, rfl⟩
            refine ⟨hall, ?_, ?_, ?_, ?_⟩
            · simp only [mkRecurringOcc]
              split_ifs
              · norm_num
              · exact minuteOfDay_nonneg _
            · simp only [mkRecurringOcc]
              split_ifs
              · norm_num
              · exact le_of_lt (minuteOfDay_lt _)
            · simp only [mkRecurringOcc]
              split_ifs
              · norm_num
              · exact minuteOfDay_nonneg _
            · simp only [mkRecurringOcc]
              split_ifs
              · norm_num
              · exact le_of_lt (minuteOfDay_lt _)
      | none =>
          rw [hr] at ho
          split_ifs at ho
          · exact h o ho
          · simp only [List.mem_append, List.mem_singleton] at ho
            rcases ho with ho | rfl
            · exact h o ho
            · exact ⟨hall, minuteOfDay_nonneg _, le_of_lt (minuteOfDay_lt _),
                minuteOfDay_nonneg _, le_of_lt (minuteOfDay_lt _)⟩

theorem timedEvents_occ_inv (p : PeriodState) :
    ∀ o ∈ timedEvents p, o.event.allDay = false ∧ 0 ≤ o.startMinutes ∧
      o.startMinutes ≤ 1440 ∧ 0 ≤ o.endMinutes ∧ o.endMinutes ≤ 1440 := by
  have hcore : ∀ o ∈ (timedEventsCore p).1, o.event.allDay = false ∧
      0 ≤ o.startMinutes ∧ o.startMinutes ≤ 1440 ∧
      0 ≤ o.endMinutes ∧ o.endMinutes ≤ 1440 := by
    unfold timedEventsCore
    apply foldl_preserve (P := fun (acc : List Occ × List Int) => ∀ o ∈ acc.1,
      o.event.allDay = false ∧ 0 ≤ o.startMinutes ∧ o.startMinutes ≤ 1440 ∧
      0 ≤ o.endMinutes ∧ o.endMinutes ≤ 1440)
    · intro o ho; simp at ho
    · intro b pair _ hb
      unfold processCalendar
      apply foldl_preserve (P := fun (acc : List Occ × List Int) => ∀ o ∈ acc.1,
        o.event.allDay = false ∧ 0 ≤ o.startMinutes ∧ o.startMinutes ≤ 1440 ∧
        0 ≤ o.endMinutes ∧ o.endMinutes ≤ 1440) _ _ _ hb
      intro b' e _ hb'
      exact processEvent_occ_inv _ _ _ _ _ hb'
  intro o ho
  exact hcore o ((stableSort_perm occLE (timedEventsCore p).1).mem_iff.mp ho)

/-! ### C3 -/

/-- C3 (counterexample): the non-recurring event 2024-01-01 23:00 →
2024-01-02 01:00 spans midnight, and the non-recurring branch applies no
clipping at all: its single tuple has start_minutes 1380 and end_minutes
60, violating start ≤ end. -/
theorem c3_counterexample :
    ¬ (∀ o ∈ timedEvents lateEventPeriod, o.startMinutes ≤ o.endMinutes) := by decide

/-- C3 (amended): every tuple of `timed_events` satisfies
0 ≤ start_minutes ≤ 1440 and 0 ≤ end_minutes ≤ 1440, but not
start_minutes ≤ end_minutes: recurring occurrences are clipped only at
the period boundaries (not per window day) and non-recurring events are
never clipped, so an occurrence spanning midnight strictly inside the
window wraps around (end_minutes < start_minutes). -/
theorem c3_minute_bounds_amended :
    ∀ (p : PeriodState), ∀ o ∈ timedEvents p,
      0 ≤ o.startMinutes ∧ o.startMinutes ≤ 1440 ∧
      0 ≤ o.endMinutes ∧ o.endMinutes ≤ 1440 :=
  fun p o ho => (timedEvents_occ_inv p o ho).2

/-- C3 (witness): the bounds theorem applied to the concrete occurrence
of `lateEventPeriod`. -/
theorem c3_witness :
    (⟨(toOrdinal 2024 1 1 : Int), 1380, 60, lateEvent, "#777777"⟩ : Occ) ∈
      timedEvents lateEventPeriod ∧
    (0 ≤ (1380 : Int) ∧ (1380 : Int) ≤ 1440 ∧ 0 ≤ (60 : Int) ∧ (60 : Int) ≤ 1440) :=
  ⟨by decide, c3_minute_bounds_amended lateEventPeriod
    ⟨(toOrdinal 2024 1 1 : Int), 1380, 60, lateEvent, "#777777"⟩ (by decide)⟩

/-! ### C10 -/

/-- C10: an event whose all-day flag is set is skipped before any
recurrence expansion or window test, so no tuple of `timed_events` ever
references it. -/
theorem c10_all_day_events_skipped :
    ∀ (p : PeriodState) (e : Event), e.allDay = true →
      ∀ o ∈ timedEvents p, o.event ≠ e := by
  intro p e he o ho heq
  have hfalse := (timedEvents_occ_inv p o ho).1
  rw [heq, he] at hfalse
  exact Bool.noConfusion hfalse

/-- C10 (witness): the all-day event of `allDayPeriod` appears in no
tuple (indeed the period's event list is empty). -/
theorem c10_witness :
    allDayEvent.allDay = true ∧
    ∀ o ∈ timedEvents allDayPeriod, o.event ≠ allDayEvent :=
  ⟨by decide, c10_all_day_events_skipped allDayPeriod allDayEvent (by decide)⟩

end FadableCalendar

namespace FadableCalendar

/-! ### C4 -/

theorem mem_addExceptionDate_self (s : List Int) (x : Int) :
    x ∈ addExceptionDate s x := by
  unfold addExceptionDate
  split_ifs with h
  · exact h
  · simp

theorem mem_addExceptionDate_of_mem {y : Int} (s : List Int) (x : Int) (h : y ∈ s) :
    y ∈ addExceptionDate s x := by
  unfold addExceptionDate
  split_ifs
  · exact h
  · simp [h]

theorem mem_collectExdates_of_mem {y : Int} (sd ed : Int) (e : Event) (s : List Int)
    (h : y ∈ s) : y ∈ collectExdates sd ed e s := by
  unfold collectExdates
  apply foldl_preserve (P := fun (s : List Int) => y ∈ s) _ _ _ h
  intro s' xd _ hy
  dsimp only
  split_ifs
  · exact mem_addExceptionDate_of_mem _ _ hy
  · exact hy

theorem exdate_mem_collectExdates (sd ed : Int) (e : Event) (s : List Int)
    {xd : ExDateVal} (hxd : xd ∈ e.exdates)
    (h1 : sd ≤ dateOf xd.instant) (h2 : dateOf xd.instant ≤ ed) :
    xd.instant ∈ collectExdates sd ed e s := by
  unfold collectExdates
  have step : ∀ (l : List ExDateVal) (s : List Int), xd ∈ l →
      xd.instant ∈ l.foldl
        (fun s xd =>
          let x := xd.instant
          if sd ≤ dateOf x ∧ dateOf x ≤ ed then addExceptionDate s x else s) s := by
    intro l
    induction l with
    | nil => intro s h; simp at h
    | cons a l ih =>
        intro s h
        rcases List.mem_cons.mp h with rfl | h
        · simp only [List.foldl_cons]
          have base : xd.instant ∈
              (if sd ≤ dateOf xd.instant ∧ dateOf xd.instant ≤ ed then
                addExceptionDate s xd.instant else s) := by
            rw [if_pos ⟨h1, h2⟩]
            exact mem_addExceptionDate_self _ _
          apply foldl_preserve (P := fun (s : List Int) => xd.instant ∈ s) _ _ _ base
          intro s' xd' _ hy
          dsimp only
          split_ifs
          · exact mem_addExceptionDate_of_mem _ _ hy
          · exact hy
        · exact ih _ h
  exact step e.exdates s hxd

/-- C4 (counterexample): `morningEvent` declares a date-only EXDATE for
2024-01-02; the claim says every rule-generated instant on that whole
day is excluded, yet the 10:00 occurrence of 2024-01-02 is returned
(the parsed EXDATE is the midnight instant and the filter compares exact
instants). -/
theorem c4_counterexample :
    morningEvent.exdates = [ExDateVal.dateOnly (toOrdinal 2024 1 2)] ∧
    ¬ (∀ o ∈ timedEvents morningEventPeriod,
        ¬(o.occDate = (toOrdinal 2024 1 2 : Int) ∧ o.startMinutes = 600)) := by decide

/-- C4 (amended): occurrence filtering compares exact instants: every
kept instant of a recurring event differs from every parsed
within-window EXDATE instant of that event, where a date-only EXDATE is
parsed as midnight of its day (and so excludes only a rule-generated
instant equal to that midnight, not the whole day); a time-bearing
EXDATE excludes exactly its instant. -/
theorem c4_exact_instant_filtering :
    ∀ (sd ed : Int) (e : Event) (r : RRule) (exc : List Int),
      ∀ t ∈ keptInstants sd ed e r (collectExdates sd ed e exc),
        ∀ xd ∈ e.exdates, sd ≤ dateOf xd.instant → dateOf xd.instant ≤ ed →
          t ≠ xd.instant := by
  intro sd ed e r exc t ht xd hxd h1 h2 heq
  have hnot : t ∉ collectExdates sd ed e exc := by
    have := (List.mem_filter.mp ht).2
    exact of_decide_eq_true this
  exact hnot (heq ▸ exdate_mem_collectExdates sd ed e exc hxd h1 h2)

/-- C4 (witness): the exact-instant theorem applied to `meetingEvent`
(daily 09:00 with EXDATE 2024-01-03T09:00) at its kept 2024-01-01
instant. -/
theorem c4_witness :
    dt 2024 1 1 9 0 ≠ (ExDateVal.dateTime (dt 2024 1 3 9 0)).instant :=
  c4_exact_instant_filtering (toOrdinal 2024 1 1) (toOrdinal 2024 1 7) meetingEvent
    ⟨1, none⟩ [] (dt 2024 1 1 9 0) (by decide)
    (ExDateVal.dateTime (dt 2024 1 3 9 0)) (by decide) (by decide) (by decide)

/-! ### C8 -/

/-- C8: a freshly constructed Period has an empty exception-date set;
computing `timed_events` mutates `_exception_dates`, so its value
depends on whether `timed_events` was queried first: for
`meetingEventPeriod` it is `[]` before and the EXDATE instant
2024-01-03T09:00 after. -/
theorem c8_exception_dates_lazy_population :
    (∀ (sd ed : Int) (cals : List Calendar) (cols : Option (List String)),
        exceptionDatesOf (periodInitState sd ed cals cols) = [])
    ∧ exceptionDatesOf meetingEventPeriod = []
    ∧ exceptionDatesOf (timedEventsRun meetingEventPeriod).2 = [dt 2024 1 3 9 0]
    ∧ exceptionDatesOf (timedEventsRun meetingEventPeriod).2 ≠
        exceptionDatesOf meetingEventPeriod :=
  ⟨fun _ _ _ _ => rfl, rfl, by decide, by decide⟩

/-! ### C9 -/

/-- C9: the exception-date set is shared across all events of the
period: `dailyTenEvent` declares no exception, yet its 2024-01-02 10:00
occurrence is dropped because `dailyEightEvent` (processed earlier in
the same calendar) declares EXDATE 2024-01-02T10:00; the neighbouring
days of `dailyTenEvent` are still returned. -/
theorem c9_shared_exception_set :
    dailyTenEvent.exdates = [] ∧
    dailyEightEvent.exdates = [ExDateVal.dateTime (dt 2024 1 2 10 0)] ∧
    (∀ o ∈ timedEvents sharedExdatePeriod,
        ¬(o.event = dailyTenEvent ∧ o.occDate = (toOrdinal 2024 1 2 : Int))) ∧
    (∃ o ∈ timedEvents sharedExdatePeriod,
        o.event = dailyTenEvent ∧ o.occDate = (toOrdinal 2024 1 1 : Int)) ∧
    (∃ o ∈ timedEvents sharedExdatePeriod,
        o.event = dailyTenEvent ∧ o.occDate = (toOrdinal 2024 1 3 : Int)) := by decide

end FadableCalendar

namespace FadableCalendar

/-! ### C5 -/

theorem getD_set_self (l : List Int) (i : Nat) (a : Int) (h : i < l.length) :
    (l.set i a).getD i 0 = a := by
  simp [List.getD_eq_getElem?_getD, List.getElem?_set_self h]

theorem getD_set_ne (l : List Int) {i j : Nat} (h : i ≠ j) (a : Int) :
    (l.set i a).getD j 0 = l.getD j 0 := by
  simp [List.getD_eq_getElem?_getD, List.getElem?_set_ne h]

theorem getD_append_left (l : List Int) (a : Int) {r : Nat} (h : r < l.length) :
    (l ++ [a]).getD r 0 = l.getD r 0 := by
  simp [List.getD_eq_getElem?_getD, List.getElem?_append_left h]

theorem getD_append_length (l : List Int) (a : Int) :
    (l ++ [a]).getD l.length 0 = a := by
  simp [List.getD_eq_getElem?_getD, List.getElem?_concat_length]

theorem findRow_some_spec :
    ∀ (l : List Int) (s : Int) (i : Nat), findRow l s = some i →
      i < l.length ∧ l.getD i 0 ≤ s := by
  intro l
  induction l with
  | nil => intro s i h; simp [findRow] at h
  | cons a l ih =>
      intro s i h
      simp only [findRow] at h
      split_ifs at h with ha
      · obtain rfl : (0 : Nat) = i := Option.some.inj h
        exact ⟨by simp, by simpa using ha⟩
      · cases hw : findRow l s with
        | none => rw [hw] at h; simp at h
        | some j =>
            rw [hw] at h
            obtain rfl : j + 1 = i := Option.some.inj (by simpa using h)
            obtain ⟨hj, hle⟩ := ih s j hw
            exact ⟨by simpa using Nat.succ_lt_succ hj, by simpa using hle⟩

theorem findRow_none_mem :
    ∀ (l : List Int) (s : Int), findRow l s = none → ∀ e ∈ l, s < e := by
  intro l
  induction l with
  | nil => intro s _ e he; simp at he
  | cons a l ih =>
      intro s h e he
      simp only [findRow] at h
      split_ifs at h with ha
      have h' : findRow l s = none := Option.map_eq_none'.mp h
      rcases List.mem_cons.mp he with rfl | he
      · exact lt_of_not_le ha
      · exact ih s h' e he

theorem findRow_none_spec (l : List Int) (s : Int) (h : findRow l s = none)
    {r : Nat} (hr : r < l.length) : s < l.getD r 0 := by
  have hmem : l.getD r 0 ∈ l := by
    rw [List.getD_eq_getElem l 0 hr]
    exact List.getElem_mem hr
  exact findRow_none_mem l s h _ hmem

theorem stripStep_assigned (st : StripState) (iv : Int × Int) :
    ∃ r : Nat, (stripStep st iv).assigned = st.assigned ++ [(iv.1, iv.2, r)] := by
  unfold stripStep
  cases findRow st.rowEndTimes iv.1 with
  | some idx => exact ⟨idx, rfl⟩
  | none => exact ⟨st.rowEndTimes.length, rfl⟩

theorem stripStep_inv (st : StripState) (iv : Int × Int)
    (hInv : StripInv st) (hStarts : ∀ x ∈ st.assigned, x.1 ≤ iv.1) :
    StripInv (stripStep st iv) := by
  obtain ⟨h1, h2, h3, h4⟩ := hInv
  unfold stripStep
  cases hf : findRow st.rowEndTimes iv.1 with
  | some idx =>
      obtain ⟨hidx, hle⟩ := findRow_some_spec _ _ _ hf
      have hrow : ∀ x ∈ st.assigned, x.2.2 = idx → x.2.1 ≤ iv.1 := by
        intro x hx hxr
        rcases h3 x hx with he | ⟨z, hz, hzr, hxe⟩
        · rw [he, hxr]; exact hle
        · exact le_trans hxe (hStarts z hz)
      refine ⟨?_, ?_, ?_, ?_⟩
      · intro x hx
        simp only [List.length_set]
        rcases List.mem_append.mp hx with hx | hx
        · exact h1 x hx
        · simp only [List.mem_singleton] at hx
          subst hx
          simpa using hidx
      · intro r hr
        simp only [List.length_set] at hr
        by_cases hri : r = idx
        · subst hri
          exact ⟨(iv.1, iv.2, r), by simp, rfl, (getD_set_self _ _ _ hidx).symm⟩
        · obtain ⟨x, hx, hxr, hxe⟩ := h2 r hr
          exact ⟨x, List.mem_append_left _ hx, hxr, by
            rw [getD_set_ne _ (fun h => hri h.symm) _]; exact hxe⟩
      · intro x hx
        rcases List.mem_append.mp hx with hxo | hxn
        · rcases h3 x hxo with he | ⟨z, hz, hzr, hxe⟩
          · by_cases hxr : x.2.2 = idx
            · right
              refine ⟨(iv.1, iv.2, idx), by simp, hxr.symm, hrow x hxo hxr⟩
            · left
              rw [getD_set_ne _ (fun h => hxr h.symm) _]
              exact he
          · right
            exact ⟨z, List.mem_append_left _ hz, hzr, hxe⟩
        · simp only [List.mem_singleton] at hxn
          subst hxn
          left
          exact (getD_set_self _ _ _ hidx).symm
      · rw [List.pairwise_append]
        refine ⟨h4, List.pairwise_singleton _ _, ?_⟩
        intro a ha b hb
        simp only [List.mem_singleton] at hb
        subst hb
        intro hr
        exact hrow a ha hr
  | none =>
      have hnone := fun {r} (hr : r < st.rowEndTimes.length) => findRow_none_spec _ _ hf hr
      refine ⟨?_, ?_, ?_, ?_⟩
      · intro x hx
        simp only [List.length_append, List.length_singleton]
        rcases List.mem_append.mp hx with hx | hx
        · exact Nat.lt_succ_of_lt (h1 x hx)
        · simp only [List.mem_singleton] at hx
          subst hx
          simp
      · intro r hr
        simp only [List.length_append, List.length_singleton] at hr
        rcases Nat.lt_succ_iff_lt_or_eq.mp hr with hr | rfl
        · obtain ⟨x, hx, hxr, hxe⟩ := h2 r hr
          exact ⟨x, List.mem_append_left _ hx, hxr, by
            rw [getD_append_left _ _ hr]; exact hxe⟩
        · exact ⟨(iv.1, iv.2, st.rowEndTimes.length), by simp, rfl,
            (getD_append_length _ _).symm⟩
      · intro x hx
        rcases List.mem_append.mp hx with hxo | hxn
        · rcases h3 x hxo with he | ⟨z, hz, hzr, hxe⟩
          · left
            rw [getD_append_left _ _ (h1 x hxo)]
            exact he
          · right
            exact ⟨z, List.mem_append_left _ hz, hzr, hxe⟩
        · simp only [List.mem_singleton] at hxn
          subst hxn
          left
          exact (getD_append_length _ _).symm
      · rw [List.pairwise_append]
        refine ⟨h4, List.pairwise_singleton _ _, ?_⟩
        intro a ha b hb
        simp only [List.mem_singleton] at hb
        subst hb
        intro hr
        exact absurd (h1 a ha) (by rw [hr]; exact Nat.lt_irrefl _)

theorem length_ge_of_all_rows {l : List (Int × Int × Nat)} {n : Nat}
    (h : ∀ r, r < n → ∃ x ∈ l, x.2.2 = r) : n ≤ l.length := by
  have hsub : Finset.range n ⊆ (l.map (fun x => x.2.2)).toFinset := by
    intro r hr
    obtain ⟨x, hx, hrx⟩ := h r (Finset.mem_range.mp hr)
    exact List.mem_toFinset.mpr (List.mem_map.mpr ⟨x, hx, hrx⟩)
  calc n = (Finset.range n).card := (Finset.card_range n).symm
    _ ≤ (l.map (fun x => x.2.2)).toFinset.card := Finset.card_le_card hsub
    _ ≤ (l.map (fun x => x.2.2)).length := List.toFinset_card_le _
    _ = l.length := List.length_map _ _

theorem stripStep_clique (st : StripState) (iv : Int × Int)
    (hInv : StripInv st) (hStarts : ∀ x ∈ st.assigned, x.1 ≤ iv.1)
    (hiv : iv.1 < iv.2) (hCl : stripCliquePoint st) :
    stripCliquePoint (stripStep st iv) := by
  obtain ⟨h1, h2, h3, h4⟩ := hInv
  unfold stripStep
  cases hf : findRow st.rowEndTimes iv.1 with
  | some idx =>
      obtain ⟨p, hp⟩ := hCl
      refine ⟨p, ?_⟩
      simp only [List.length_set, List.filter_append, List.length_append]
      exact le_trans hp (Nat.le_add_right _ _)
  | none =>
      have hnone := fun {r} (hr : r < st.rowEndTimes.length) => findRow_none_spec _ _ hf hr
      refine ⟨iv.1, ?_⟩
      have hreps : ∀ r, r < st.rowEndTimes.length →
          ∃ x ∈ st.assigned.filter (containsPoint iv.1), x.2.2 = r := by
        intro r hr
        obtain ⟨x, hx, hxr, hxe⟩ := h2 r hr
        refine ⟨x, List.mem_filter.mpr ⟨hx, ?_⟩, hxr⟩
        have hlt : iv.1 < x.2.1 := by rw [hxe]; exact hnone hr
        simp [containsPoint, hStarts x hx, hlt]
      have hR : st.rowEndTimes.length ≤
          (st.assigned.filter (containsPoint iv.1)).length :=
        length_ge_of_all_rows hreps
      have hnew : (([((iv.1, iv.2, st.rowEndTimes.length) : Int × Int × Nat)]).filter
          (containsPoint iv.1)).length = 1 := by
        simp [containsPoint, hiv]
      simp only [List.filter_append, List.length_append, List.length_singleton]
      rw [hnew]
      omega

theorem assignRows_fold (l : List (Int × Int)) :
    ∀ st : StripState,
      l.Pairwise (fun a b => a.1 ≤ b.1) →
      StripInv st →
      (∀ x ∈ st.assigned, ∀ iv ∈ l, x.1 ≤ iv.1) →
      StripInv (l.foldl stripStep st) ∧
      (l.foldl stripStep st).assigned.map (fun x => (x.1, x.2.1)) =
        st.assigned.map (fun x => (x.1, x.2.1)) ++ l := by
  induction l with
  | nil =>
      intro st _ hInv _
      exact ⟨hInv, by simp⟩
  | cons iv l ih =>
      intro st hSorted hInv hStarts
      have hS : ∀ x ∈ st.assigned, x.1 ≤ iv.1 :=
        fun x hx => hStarts x hx iv (List.mem_cons_self _ _)
      have hInv' := stripStep_inv st iv hInv hS
      obtain ⟨r, hr⟩ := stripStep_assigned st iv
      have hHead : ∀ b ∈ l, iv.1 ≤ b.1 := (List.pairwise_cons.mp hSorted).1
      have hSorted' := (List.pairwise_cons.mp hSorted).2
      have hStarts' : ∀ x ∈ (stripStep st iv).assigned, ∀ iv' ∈ l, x.1 ≤ iv'.1 := by
        intro x hx iv' hiv'
        rw [hr] at hx
        rcases List.mem_append.mp hx with hx | hx
        · exact hStarts x hx iv' (List.mem_cons_of_mem _ hiv')
        · simp only [List.mem_singleton] at hx
          subst hx
          exact hHead iv' hiv'
      obtain ⟨hInvF, hMapF⟩ := ih (stripStep st iv) hSorted' hInv' hStarts'
      refine ⟨by simp only [List.foldl_cons]; exact hInvF, ?_⟩
      simp only [List.foldl_cons]
      rw [hMapF, hr, List.map_append]
      simp

theorem assignRows_fold_clique (l : List (Int × Int)) :
    ∀ st : StripState,
      l.Pairwise (fun a b => a.1 ≤ b.1) →
      StripInv st →
      (∀ x ∈ st.assigned, ∀ iv ∈ l, x.1 ≤ iv.1) →
      (∀ iv ∈ l, iv.1 < iv.2) →
      stripCliquePoint st →
      stripCliquePoint (l.foldl stripStep st) := by
  induction l with
  | nil => intro st _ _ _ _ hCl; exact hCl
  | cons iv l ih =>
      intro st hSorted hInv hStarts hStrict hCl
      have hS : ∀ x ∈ st.assigned, x.1 ≤ iv.1 :=
        fun x hx => hStarts x hx iv (List.mem_cons_self _ _)
      have hInv' := stripStep_inv st iv hInv hS
      have hCl' := stripStep_clique st iv hInv hS
        (hStrict iv (List.mem_cons_self _ _)) hCl
      obtain ⟨r, hr⟩ := stripStep_assigned st iv
      have hHead : ∀ b ∈ l, iv.1 ≤ b.1 := (List.pairwise_cons.mp hSorted).1
      have hStarts' : ∀ x ∈ (stripStep st iv).assigned, ∀ iv' ∈ l, x.1 ≤ iv'.1 := by
        intro x hx iv' hiv'
        rw [hr] at hx
        rcases List.mem_append.mp hx with hx | hx
        · exact hStarts x hx iv' (List.mem_cons_of_mem _ hiv')
        · simp only [List.mem_singleton] at hx
          subst hx
          exact hHead iv' hiv'
      exact ih (stripStep st iv) (List.pairwise_cons.mp hSorted).2 hInv' hStarts'
        (fun iv' h => hStrict iv' (List.mem_cons_of_mem _ h)) hCl'

theorem stripInv_initial : StripInv ⟨[], []⟩ := by
  refine ⟨?_, ?_, ?_, ?_⟩ <;> simp [StripInv]

theorem stripCliquePoint_initial : stripCliquePoint ⟨[], []⟩ :=
  ⟨0, by simp⟩

theorem init_le_foldl_max :
    ∀ (ns : List Nat) (init : Nat), init ≤ ns.foldl Nat.max init := by
  intro ns
  induction ns with
  | nil => intro init; simp
  | cons m ns ih =>
      intro init
      calc init ≤ Nat.max init m := Nat.le_max_left _ _
        _ ≤ ns.foldl Nat.max (Nat.max init m) := ih _

theorem le_foldl_max :
    ∀ (ns : List Nat) (init n : Nat), n ∈ ns → n ≤ ns.foldl Nat.max init := by
  intro ns
  induction ns with
  | nil => intro _ n h; simp at h
  | cons m ns ih =>
      intro init n h
      rcases List.mem_cons.mp h with rfl | h
      · calc n ≤ Nat.max init n := Nat.le_max_right _ _
          _ ≤ ns.foldl Nat.max (Nat.max init n) := init_le_foldl_max ns _
      · exact ih _ n h

theorem foldl_max_le :
    ∀ (ns : List Nat) (init R : Nat), init ≤ R → (∀ n ∈ ns, n ≤ R) →
      ns.foldl Nat.max init ≤ R := by
  intro ns
  induction ns with
  | nil => intro init R h _; simpa using h
  | cons m ns ih =>
      intro init R h hall
      exact ih _ R (Nat.max_le.mpr ⟨h, hall m (List.mem_cons_self _ _)⟩)
        (fun n hn => hall n (List.mem_cons_of_mem _ hn))

theorem clique_le_maxCliqueSize {l c : List (Int × Int)}
    (hsub : c.Sublist l) (hc : isClique c) : c.length ≤ maxCliqueSize l := by
  unfold maxCliqueSize
  apply le_foldl_max
  exact List.mem_map.mpr ⟨c, List.mem_filter.mpr
    ⟨List.mem_sublists.mpr hsub, decide_eq_true hc⟩, rfl⟩

theorem maxCliqueSize_le {l : List (Int × Int)} {R : Nat}
    (h : ∀ c, c.Sublist l → isClique c → c.length ≤ R) : maxCliqueSize l ≤ R := by
  unfold maxCliqueSize
  apply foldl_max_le _ _ _ (Nat.zero_le R)
  intro n hn
  obtain ⟨c, hcf, rfl⟩ := List.mem_map.mp hn
  obtain ⟨hcs, hcd⟩ := List.mem_filter.mp hcf
  exact h c (List.mem_sublists.mp hcs) (of_decide_eq_true hcd)

theorem nodup_lt_length_le {ns : List Nat} {R : Nat}
    (hnd : ns.Nodup) (hlt : ∀ n ∈ ns, n < R) : ns.length ≤ R := by
  calc ns.length = ns.toFinset.card := (List.toFinset_card_of_nodup hnd).symm
    _ ≤ (Finset.range R).card := Finset.card_le_card
        (fun n hn => Finset.mem_range.mpr (hlt n (List.mem_toFinset.mp hn)))
    _ = R := Finset.card_range R

theorem assignRows_spec (l : List (Int × Int))
    (hSorted : l.Pairwise (fun a b => a.1 ≤ b.1)) :
    StripInv (assignRows l) ∧
    (assignRows l).assigned.map (fun x => (x.1, x.2.1)) = l := by
  have h := assignRows_fold l ⟨[], []⟩ hSorted stripInv_initial
    (by intro x hx; simp at hx)
  simpa [assignRows] using h

theorem rowLE_not_overlaps {x y : Int × Int × Nat}
    (hR : rowLE x y) (heq : x.2.2 = y.2.2) :
    ¬ overlaps (x.1, x.2.1) (y.1, y.2.1) := by
  intro hov
  have hle := hR heq
  unfold overlaps at hov
  simp only at hov
  have h1 : y.1 ≤ max x.1 y.1 := le_max_right _ _
  have h2 : min x.2.1 y.2.1 ≤ x.2.1 := min_le_left _ _
  exact absurd (lt_of_le_of_lt h1 (lt_of_lt_of_le hov h2)) (not_lt.mpr hle)

theorem rowsUsed_le_maxCliqueSize (l : List (Int × Int))
    (hSorted : l.Pairwise (fun a b => a.1 ≤ b.1))
    (hStrict : ∀ iv ∈ l, iv.1 < iv.2) :
    rowsUsed l ≤ maxCliqueSize l := by
  obtain ⟨hInv, hmap⟩ := assignRows_spec l hSorted
  have hcl := assignRows_fold_clique l ⟨[], []⟩ hSorted stripInv_initial
    (by intro x hx; simp at hx) hStrict stripCliquePoint_initial
  obtain ⟨p, hp⟩ := hcl
  have hpred : containsPoint p =
      (fun iv : Int × Int => decide (iv.1 ≤ p) && decide (p < iv.2)) ∘
        (fun x : Int × Int × Nat => (x.1, x.2.1)) := rfl
  have hlen : (l.filter (fun iv => decide (iv.1 ≤ p) && decide (p < iv.2))).length =
      ((assignRows l).assigned.filter (containsPoint p)).length := by
    conv_lhs => rw [← hmap]
    rw [List.filter_map, List.length_map, hpred]
  have hclique : isClique (l.filter (fun iv => decide (iv.1 ≤ p) && decide (p < iv.2))) := by
    apply List.pairwise_of_forall_mem_list
    intro a ha b hb
    have hpa := List.of_mem_filter ha
    have hpb := List.of_mem_filter hb
    simp only [Bool.and_eq_true, decide_eq_true_eq] at hpa hpb
    unfold overlaps
    exact lt_of_le_of_lt (max_le hpa.1 hpb.1) (lt_min hpa.2 hpb.2)
  calc rowsUsed l ≤ ((assignRows l).assigned.filter (containsPoint p)).length := hp
    _ = (l.filter (fun iv => decide (iv.1 ≤ p) && decide (p < iv.2))).length := hlen.symm
    _ ≤ maxCliqueSize l := clique_le_maxCliqueSize (List.filter_sublist l) hclique

theorem maxCliqueSize_le_rowsUsed (l : List (Int × Int))
    (hSorted : l.Pairwise (fun a b => a.1 ≤ b.1)) :
    maxCliqueSize l ≤ rowsUsed l := by
  obtain ⟨hInv, hmap⟩ := assignRows_spec l hSorted
  apply maxCliqueSize_le
  intro c hsub hc
  rw [← hmap] at hsub
  obtain ⟨c', hc'sub, rfl⟩ := List.sublist_map_iff.mp hsub
  have hrows : c'.Pairwise rowLE := List.Pairwise.sublist hc'sub hInv.2.2.2
  have hov : c'.Pairwise (fun x y =>
      overlaps (x.1, x.2.1) (y.1, y.2.1)) := List.pairwise_map.mp hc
  have hne : (c'.map (fun x => x.2.2)).Nodup := by
    apply List.pairwise_map.mpr
    apply (hrows.and hov).imp
    intro x y ⟨hR, hO⟩ heq
    exact rowLE_not_overlaps hR heq hO
  have hlt : ∀ n ∈ c'.map (fun x => x.2.2), n < rowsUsed l := by
    intro n hn
    obtain ⟨x, hx, rfl⟩ := List.mem_map.mp hn
    exact hInv.1 x (hc'sub.subset hx)
  calc (c'.map (fun x : Int × Int × Nat => (x.1, x.2.1))).length = c'.length :=
        List.length_map _ _
    _ = (c'.map (fun x => x.2.2)).length := (List.length_map _ _).symm
    _ ≤ rowsUsed l := nodup_lt_length_le hne hlt

/-- C5 (counterexample): the day intervals the code produces for
2024-01-01 of `overlapPeriod` are [(1290, 1350), (1320, 30)]
(start-sorted); its overlap graph has maximum clique size 1 (the wrapped
range [1320, 30) is empty, overlapping nothing), yet the greedy
assignment opens 2 rows — the claimed equality with the maximum clique
size fails on code-producible input. -/
theorem c5_counterexample :
    dayIntervals overlapPeriod (toOrdinal 2024 1 1) = [(1290, 1350), (1320, 30)] ∧
    List.Pairwise (fun (a b : Int × Int) => a.1 ≤ b.1)
      (dayIntervals overlapPeriod (toOrdinal 2024 1 1)) ∧
    rowsUsed (dayIntervals overlapPeriod (toOrdinal 2024 1 1)) = 2 ∧
    maxCliqueSize (dayIntervals overlapPeriod (toOrdinal 2024 1 1)) = 1 := by decide

/-- C5 (amended): for every start-sorted list of same-day occurrence
intervals, the greedy assignment processes each occurrence into the
first (lowest-index) row whose end time is ≤ its start (appending a new
row otherwise, as `stripStep` defines); the produced assignments carry
exactly the input intervals in order; no two same-row occurrences have
overlapping [start, end) ranges; the reported total row count is
max(1, rows used); and the number of rows used equals the maximum clique
size of the overlap graph PROVIDED every occurrence satisfies
start_minutes < end_minutes (empty or midnight-wrapped ranges can force
extra rows beyond the clique bound). -/
theorem c5_row_assignment_amended :
    ∀ l : List (Int × Int),
      l.Pairwise (fun a b => a.1 ≤ b.1) →
      ((assignRows l).assigned.map (fun x => (x.1, x.2.1)) = l ∧
       (assignRows l).assigned.Pairwise
         (fun x y => x.2.2 = y.2.2 → ¬ overlaps (x.1, x.2.1) (y.1, y.2.1)) ∧
       totalRows l = max 1 (rowsUsed l) ∧
       ((∀ iv ∈ l, iv.1 < iv.2) → rowsUsed l = maxCliqueSize l)) := by
  intro l hSorted
  obtain ⟨hInv, hmap⟩ := assignRows_spec l hSorted
  refine ⟨hmap, ?_, rfl, ?_⟩
  · exact hInv.2.2.2.imp (fun hR heq => rowLE_not_overlaps hR heq)
  · intro hStrict
    exact Nat.le_antisymm (rowsUsed_le_maxCliqueSize l hSorted hStrict)
      (maxCliqueSize_le_rowsUsed l hSorted)

/-- C5 (witness): the amended theorem at the spec's own scenario
(10:00–11:00, 10:30–11:30, 11:00–12:00): rows 0, 1, 0 and two rows =
maximum clique size. -/
theorem c5_witness :
    (assignRows [((600 : Int), (660 : Int)), (630, 690), (660, 720)]).assigned =
      [(600, 660, 0), (630, 690, 1), (660, 720, 0)] ∧
    rowsUsed [((600 : Int), (660 : Int)), (630, 690), (660, 720)] =
      maxCliqueSize [((600 : Int), (660 : Int)), (630, 690), (660, 720)] :=
  ⟨by decide,
    (c5_row_assignment_amended [((600 : Int), (660 : Int)), (630, 690), (660, 720)]
      (by decide)).2.2.2 (by decide)⟩

end FadableCalendar
